import Mathlib

/-!
# The WebAssembly example of JSXGraph: `examples/wasm`

A shallow embedding of `jxg.h`, `jxg.cpp` and `board.cpp`.

The C++ code talks to a JavaScript host through `emscripten::val`.  A `val` is
embedded as a JavaScript value (`Val`), building one (`val::object`, `set`,
`val::array`, `val(x)`) is a pure operation, and `val::call` is the one
operation that runs host code: it is embedded as a step of an arbitrary host
(`Host`), which may answer with a value or fail, and every such step is
recorded in a trace of the calls made so far (`World.trace`).
-/

namespace JXG

/-! ## JavaScript values -/

/-- A JavaScript value as `emscripten::val` holds it.  A C++ `int` crosses the
boundary as a `number`; `handle` is a reference to an object owned by the host
whose contents the C++ side cannot inspect. -/
inductive Val where
  | undefined
  | boolean (b : Bool)
  | number (n : Int)
  | string (s : String)
  | array (items : List Val)
  | object (props : List (String × Val))
  | handle (id : Nat)

/-- Assignment `o[key] = value` on the property list of an object: an existing
key keeps its place and gets the new value, a new key is added at the end. -/
def setProp (props : List (String × Val)) (key : String) (value : Val) :
    List (String × Val) :=
  match props with
  | [] => [(key, value)]
  | (k, v) :: rest =>
    if k = key then (k, value) :: rest else (k, v) :: setProp rest key value

namespace Val

/-- Embedding of `val::object()`: the empty object. -/
def emptyObject : Val := Val.object []

/-- Embedding of `val::set(key, value)`. -/
def set (self : Val) (key : String) (value : Val) : Val :=
  match self with
  | Val.object props => Val.object (setProp props key value)
  | other => other

/-- Embedding of `val::array(first, last)` on a range of `int`: the array of the
elements as numbers, in the order of the range. -/
def ofInts (xs : List Int) : Val := Val.array (xs.map Val.number)

/-- The keys of an object, in order (none for a value that is no object). -/
def keys : Val → List String
  | Val.object props => props.map Prod.fst
  | _ => []

/-- Property lookup `o[key]`. -/
def getProp : Val → String → Option Val
  | Val.object props, key => (props.find? (fun p => p.1 == key)).map Prod.snd
  | _, _ => none

end Val

/-! ## The host -/

/-- One `receiver.method(args...)` call into the host. -/
structure HostCall where
  receiver : Val
  method : String
  args : List Val

/-- The host environment: from its state `σ` and a call it produces either the
value the call returns or the failure `ε` it throws, and its next state.
Nothing is assumed about it. -/
structure Host (σ ε : Type) where
  call : σ → HostCall → Except ε Val × σ

/-- What the C++ code runs against: the state of the host and the host calls
made so far, oldest first. -/
structure World (σ : Type) where
  host : σ
  trace : List HostCall

/-- Embedding of `receiver.call<val>(method, args...)`: the call is recorded and
handed to the host; the answer of the host, value or failure, is the result. -/
def Val.call {σ ε : Type} (H : Host σ ε) (receiver : Val) (method : String)
    (args : List Val) (w : World σ) : Except ε Val × World σ :=
  let c : HostCall := ⟨receiver, method, args⟩
  let r := H.call w.host c
  (r.1, ⟨r.2, w.trace ++ [c]⟩)

/-! ## `jxg.h` -/

/-- Embedding of `std::array<int, n>`: exactly `n` integers.  No arithmetic is
done on the elements, so the width of `int` plays no role and they are
integers. -/
structure IntArray (n : Nat) where
  elems : List Int
  size_eq : elems.length = n

/-- Embedding of `a[i]` on a `std::array<int, n>`. -/
def IntArray.get {n : Nat} (a : IntArray n) (i : Fin n) : Int :=
  a.elems.get (i.cast a.size_eq.symm)

/-- Embedding of `struct BoardOptions`. -/
structure BoardOptions where
  boundingBox : IntArray 4
  grid : Bool
  axis : Bool

/-- Embedding of `class Board`: its one data member. -/
structure Board where
  myBoard : Val

/-! ## `jxg.cpp` -/

/-- The attribute object `Board::initBoard` builds (lines 20 to 24). -/
def boardAttributes (options : BoardOptions) : Val :=
  let boardAttributes := Val.emptyObject
  let bounds := options.boundingBox
  let boardAttributes := boardAttributes.set "boundingBox" (Val.ofInts bounds.elems)
  let boardAttributes := boardAttributes.set "grid" (Val.boolean options.grid)
  let boardAttributes := boardAttributes.set "axis" (Val.boolean options.axis)
  boardAttributes

/-- Embedding of `Board::initBoard`.  `_JSXGraph` is the file-scope variable of
that name (`JXG.JSXGraph` of the page, read once when the module is loaded). -/
def Board.initBoard {σ ε : Type} (H : Host σ ε) (_JSXGraph : Val) (box : String)
    (options : BoardOptions) (w : World σ) : Except ε Board × World σ :=
  match Val.call H _JSXGraph "initBoard" [Val.string box, boardAttributes options] w with
  | (Except.error e, w1) => (Except.error e, w1)
  | (Except.ok board, w1) =>
    let result : Board := ⟨board⟩
    (Except.ok result, w1)

/-- Embedding of `Board::createPoint`, a member function that is not `const`:
besides its result and the world it returns the `Board` as the call leaves
it. -/
def Board.createPoint {σ ε : Type} (H : Host σ ε) (self : Board) (coords : IntArray 2)
    (w : World σ) : Except ε Val × Board × World σ :=
  match Val.call H self.myBoard "createElement"
      [Val.string "point", Val.ofInts coords.elems] w with
  | (r, w1) => (r, self, w1)

/-! ## `board.cpp` -/

/-- The options `main` builds (lines 15 to 20). -/
def mainOptions : BoardOptions :=
  { boundingBox := ⟨[-2, 6, 6, -2], rfl⟩, grid := false, axis := true }

/-- Embedding of `main`: a failure of either call leaves `main` at once;
otherwise it returns 0. -/
def main {σ ε : Type} (H : Host σ ε) (_JSXGraph : Val) (w : World σ) :
    Except ε Int × World σ :=
  let options := mainOptions
  match Board.initBoard H _JSXGraph "box" options w with
  | (Except.error e, w1) => (Except.error e, w1)
  | (Except.ok board, w1) =>
    match board.createPoint H ⟨[4, 1], rfl⟩ w1 with
    | (Except.error e, _, w2) => (Except.error e, w2)
    | (Except.ok _, _, w2) => (Except.ok 0, w2)

/-- A caller that makes one `createPoint` call on the board for each element of
`coords`, in order, whatever the earlier calls answered (a failure is caught and
dropped).  It returns the board and the world after the last call. -/
def createPoints {σ ε : Type} (H : Host σ ε) (b : Board) (coords : List (IntArray 2))
    (w : World σ) : Board × World σ :=
  match coords with
  | [] => (b, w)
  | c :: rest =>
    match b.createPoint H c w with
    | (_, b1, w1) => createPoints H b1 rest w1

/-! ## A reference host -/

/-- What a handle of the reference host refers to. -/
inductive PageObject where
  | jsxGraph
  | board (container : String) (boundingBox : List Int) (grid axis : Bool)
  | point (board : Nat) (x y : Int)

/-- Failures of the reference host. -/
inductive PageError where
  | notAFunction
  | noSuchElement
  | invalidArguments

/-- Modelled from the spec: the JSXGraph library and the page, which are not
among the source files.  The page has elements with identifiers and the host
owns objects; `Val.handle i` refers to `objects[i]`. -/
structure Page where
  elements : List String
  objects : List PageObject

/-- The numbers of an array of numbers. -/
def Val.toInts : Val → Option (List Int)
  | Val.array items => items.mapM (fun v => match v with
      | Val.number n => some n
      | _ => none)
  | _ => none

/-- The flag a boolean value holds. -/
def Val.toBool : Val → Option Bool
  | Val.boolean b => some b
  | _ => none

/-- Modelled from the spec: `initBoard` of the host library, which is not among
the source files.  It creates a drawing surface attached to the page element
named by the identifier, configured with the bounding box and display flags
given, and fails if the identifier names no element of the page. -/
def Page.initBoard (p : Page) (box : String) (attributes : Val) :
    Except PageError Val × Page :=
  if box ∈ p.elements then
    match (attributes.getProp "boundingBox").bind Val.toInts,
        (attributes.getProp "grid").bind Val.toBool,
        (attributes.getProp "axis").bind Val.toBool with
    | some bounds, some grid, some axis =>
      (Except.ok (Val.handle p.objects.length),
        { p with objects := p.objects ++ [PageObject.board box bounds grid axis] })
    | _, _, _ => (Except.error PageError.invalidArguments, p)
  else (Except.error PageError.noSuchElement, p)

/-- Modelled from the spec: `createElement` of a board of the host library, which
is not among the source files.  For the element type "point" and two integer
coordinates it creates a point element at these coordinates on the board and
returns a reference to it. -/
def Page.createElement (p : Page) (board : Nat) (args : List Val) :
    Except PageError Val × Page :=
  match args with
  | [Val.string "point", Val.array [Val.number x, Val.number y]] =>
    (Except.ok (Val.handle p.objects.length),
      { p with objects := p.objects ++ [PageObject.point board x y] })
  | _ => (Except.error PageError.invalidArguments, p)

/-- Modelled from the spec: how the host answers a call, the host being outside
the source files.  `initBoard` is a method of the library object,
`createElement` one of a board; any other call fails. -/
def Page.call (p : Page) (c : HostCall) : Except PageError Val × Page :=
  match c.receiver with
  | Val.handle i =>
    match p.objects[i]? with
    | some PageObject.jsxGraph =>
      match c.method, c.args with
      | "initBoard", [Val.string box, attributes] => p.initBoard box attributes
      | _, _ => (Except.error PageError.notAFunction, p)
    | some (PageObject.board _ _ _ _) =>
      if c.method = "createElement" then p.createElement i c.args
      else (Except.error PageError.notAFunction, p)
    | _ => (Except.error PageError.notAFunction, p)
  | _ => (Except.error PageError.notAFunction, p)

/-- The reference host. -/
def pageHost : Host Page PageError := ⟨Page.call⟩

/-- The point elements of the board with handle `board`, oldest first. -/
def Page.pointsOf (p : Page) (board : Nat) : List (Int × Int) :=
  p.objects.filterMap (fun o => match o with
    | PageObject.point b x y => if b = board then some (x, y) else none
    | _ => none)

/-- A page with the library loaded (handle 0) and one element, "box". -/
def boxPage : Page := ⟨["box"], [PageObject.jsxGraph]⟩

/-- The page `boxPage` after a board was made on "box" (handle 1). -/
def boardPage : Page :=
  ⟨["box"], [PageObject.jsxGraph, PageObject.board "box" [-2, 6, 6, -2] false true]⟩

/-- The host call `Board::initBoard` makes. -/
def initBoardCall (_JSXGraph : Val) (box : String) (options : BoardOptions) : HostCall :=
  ⟨_JSXGraph, "initBoard", [Val.string box, boardAttributes options]⟩

/-- The host call `Board::createPoint` makes. -/
def createPointCall (b : Board) (coords : IntArray 2) : HostCall :=
  ⟨b.myBoard, "createElement", [Val.string "point", Val.ofInts coords.elems]⟩

/-- The attribute object as the specification describes it: the key
`boundingBox` with the array of the four bounds in order, then `grid`, then
`axis`. -/
def attributesOf (left top right bottom : Int) (grid axis : Bool) : Val :=
  Val.object [("boundingBox",
      Val.array [Val.number left, Val.number top, Val.number right, Val.number bottom]),
    ("grid", Val.boolean grid), ("axis", Val.boolean axis)]

/-- The coordinate array as the specification describes it. -/
def coordsOf (x y : Int) : Val := Val.array [Val.number x, Val.number y]

/-! ## `double` arithmetic -/

/-- A value of type `double` (IEEE 754 binary64, the `f64` of WebAssembly): not a
number, an infinity, or a finite value given by its sign and its magnitude, so
that zero has a sign. -/
inductive Double where
  | nan
  | inf (neg : Bool)
  | fin (neg : Bool) (mag : ℚ)
  deriving DecidableEq

/-- The part of the arithmetic the source does not fix.  `rnd` rounds the
magnitude of a result that is in range to a binary64 magnitude; `sin` is the sine
of `<cmath>` on a finite argument other than zero, given and returned as sign and
magnitude (its result is finite). -/
structure Platform where
  rnd : ℚ → ℚ
  sin : Bool → ℚ → Bool × ℚ

namespace Double

/-- Magnitudes from here on round to infinity: the midpoint of the largest
binary64 number, `2^1024 - 2^971`, and `2^1024`. -/
def overflowAt : ℚ := 2 ^ 1024 - 2 ^ 970

/-- The result of an operation whose exact value has sign `neg` and magnitude
`q`: an infinity on overflow, else the rounded value.  No operation traps. -/
def round (P : Platform) (neg : Bool) (q : ℚ) : Double :=
  if overflowAt ≤ q then inf neg else fin neg (P.rnd q)

/-- Conversion of an `int` to `double` (exact for the constants of the source). -/
def ofInt (i : Int) : Double := fin (decide (i < 0)) (i.natAbs : ℚ)

/-- Division `a / b` of two `double`. -/
def div (P : Platform) : Double → Double → Double
  | nan, _ => nan
  | _, nan => nan
  | inf _, inf _ => nan
  | inf s, fin t _ => inf (xor s t)
  | fin s _, inf t => fin (xor s t) 0
  | fin s m, fin t n =>
    if n = 0 then (if m = 0 then nan else inf (xor s t)) else round P (xor s t) (m / n)

/-- Multiplication `a * b` of two `double`. -/
def mul (P : Platform) : Double → Double → Double
  | nan, _ => nan
  | _, nan => nan
  | inf s, inf t => inf (xor s t)
  | inf s, fin t n => if n = 0 then nan else inf (xor s t)
  | fin s m, inf t => if m = 0 then nan else inf (xor s t)
  | fin s m, fin t n => round P (xor s t) (m * n)

/-- The function `sin` of `<cmath>`: not a number at an infinity, a zero at the
zero of the same sign, and the sine of the platform elsewhere. -/
def sin (P : Platform) : Double → Double
  | nan => nan
  | inf _ => nan
  | fin s m => if m = 0 then fin s 0 else fin (P.sin s m).1 (P.sin s m).2

/-- The comparison `t != 0`. -/
def nonzero : Double → Bool
  | fin _ m => decide (m ≠ 0)
  | _ => true

/-- The number a `double` stands for, when it is one. -/
def toRat : Double → Option ℚ
  | fin s m => some (if s then -m else m)
  | _ => none

/-- The rational number of sign `neg` and magnitude `q`. -/
def signed (neg : Bool) (q : ℚ) : ℚ := if neg then -q else q

/-- The comparison `lo <= x && x <= hi` (false for a value that is no number). -/
def between (lo hi : ℚ) (x : Double) : Bool :=
  match x.toRat with
  | some v => decide (lo ≤ v) && decide (v ≤ hi)
  | none => false

/-- Whether `1 / t` is a finite number: `t` is an infinity, or finite, not zero
and of a magnitude above `1 / overflowAt`. -/
def reciprocalFinite : Double → Bool
  | nan => false
  | inf _ => true
  | fin _ m => decide (m ≠ 0) && decide (1 / m < overflowAt)

end Double

/-- Embedding of `fun` of `board.cpp`: `4 * sin(1 / t)`, the two constants
converted to `double`. -/
def fun_ (P : Platform) (t : Double) : Double :=
  Double.mul P (Double.ofInt 4) (Double.sin P (Double.div P (Double.ofInt 1) t))

/-- A platform to run `fun_` on: no rounding error, and for the sine the cubic
Taylor polynomial cut off at magnitude 1. -/
def toyPlatform : Platform where
  rnd := fun q => q
  sin := fun s m => (s, min 1 |m - m ^ 3 / 6|)

/-- The smallest positive `double`, `2^(-1074)`. -/
def minDouble : Double := Double.fin false (1 / 2 ^ 1074)

/-! ## What the embedded functions do, for any host -/

theorem intArray4_elems (a : IntArray 4) :
    a.elems = [a.get 0, a.get 1, a.get 2, a.get 3] := by
  obtain ⟨elems, h⟩ := a
  match elems, h with
  | [_, _, _, _], _ => rfl

theorem intArray2_elems (a : IntArray 2) : a.elems = [a.get 0, a.get 1] := by
  obtain ⟨elems, h⟩ := a
  match elems, h with
  | [_, _], _ => rfl

theorem boardAttributes_eq (o : BoardOptions) :
    boardAttributes o =
      attributesOf (o.boundingBox.get 0) (o.boundingBox.get 1) (o.boundingBox.get 2)
        (o.boundingBox.get 3) o.grid o.axis := by
  have h := intArray4_elems o.boundingBox
  simp only [boardAttributes, Val.emptyObject, Val.set, setProp, Val.ofInts, attributesOf]
  rw [h]
  simp

theorem initBoardCall_eq (g : Val) (s : String) (o : BoardOptions) :
    initBoardCall g s o =
      ⟨g, "initBoard", [Val.string s,
        attributesOf (o.boundingBox.get 0) (o.boundingBox.get 1) (o.boundingBox.get 2)
          (o.boundingBox.get 3) o.grid o.axis]⟩ := by
  rw [initBoardCall, boardAttributes_eq]

theorem createPointCall_eq (b : Board) (c : IntArray 2) :
    createPointCall b c =
      ⟨b.myBoard, "createElement", [Val.string "point", coordsOf (c.get 0) (c.get 1)]⟩ := by
  have h := intArray2_elems c
  simp only [createPointCall, Val.ofInts, coordsOf]
  rw [h]
  simp

theorem initBoard_eq {σ ε : Type} (H : Host σ ε) (g : Val) (s : String)
    (o : BoardOptions) (w : World σ) :
    Board.initBoard H g s o w =
      ((H.call w.host (initBoardCall g s o)).1.map Board.mk,
        ⟨(H.call w.host (initBoardCall g s o)).2, w.trace ++ [initBoardCall g s o]⟩) := by
  unfold Board.initBoard Val.call initBoardCall
  cases h : (H.call w.host ⟨g, "initBoard", [Val.string s, boardAttributes o]⟩).1 <;>
    simp [h, Except.map]

theorem createPoint_eq {σ ε : Type} (H : Host σ ε) (b : Board) (c : IntArray 2)
    (w : World σ) :
    b.createPoint H c w =
      ((H.call w.host (createPointCall b c)).1, b,
        ⟨(H.call w.host (createPointCall b c)).2, w.trace ++ [createPointCall b c]⟩) := by
  rfl

theorem main_eq {σ ε : Type} (H : Host σ ε) (g : Val) (w : World σ) :
    main H g w =
      match H.call w.host (initBoardCall g "box" mainOptions) with
      | (Except.error e, s1) =>
        (Except.error e, ⟨s1, w.trace ++ [initBoardCall g "box" mainOptions]⟩)
      | (Except.ok v, s1) =>
        ((H.call s1 (createPointCall ⟨v⟩ ⟨[4, 1], rfl⟩)).1.map (fun _ => 0),
          ⟨(H.call s1 (createPointCall ⟨v⟩ ⟨[4, 1], rfl⟩)).2,
            w.trace ++ [initBoardCall g "box" mainOptions,
              createPointCall ⟨v⟩ ⟨[4, 1], rfl⟩]⟩) := by
  unfold main
  simp only [initBoard_eq, createPoint_eq]
  rcases h : H.call w.host (initBoardCall g "box" mainOptions) with ⟨r, s1⟩
  cases r with
  | error e => simp [Except.map]
  | ok v =>
    simp only [Except.map]
    rcases h2 : H.call s1 (createPointCall ⟨v⟩ ⟨[4, 1], rfl⟩) with ⟨r2, s2⟩
    cases r2 <;> simp [Except.map]

theorem createPoints_eq {σ ε : Type} (H : Host σ ε) (b : Board)
    (cs : List (IntArray 2)) (w : World σ) :
    (createPoints H b cs w).1 = b ∧
      (createPoints H b cs w).2.trace = w.trace ++ cs.map (createPointCall b) := by
  induction cs generalizing w with
  | nil => simp [createPoints]
  | cons c rest ih =>
    simp only [createPoints, createPoint_eq]
    refine ⟨(ih _).1, ?_⟩
    rw [(ih _).2]
    simp

/-! ## The reference host -/

theorem page_createElement_point (p : Page) (i : Nat) (x y : Int) (container : String)
    (bounds : List Int) (grid axis : Bool)
    (h : p.objects[i]? = some (PageObject.board container bounds grid axis)) :
    Page.call p ⟨Val.handle i, "createElement", [Val.string "point", coordsOf x y]⟩ =
      (Except.ok (Val.handle p.objects.length),
        { p with objects := p.objects ++ [PageObject.point i x y] }) := by
  simp [Page.call, h, Page.createElement, coordsOf]

theorem page_pointsOf_append_point (p : Page) (i j : Nat) (x y : Int) :
    Page.pointsOf { p with objects := p.objects ++ [PageObject.point i x y] } j =
      p.pointsOf j ++ (if i = j then [(x, y)] else []) := by
  by_cases h : i = j <;> simp [Page.pointsOf, List.filterMap_append, h]

/-! ## The claims on the host-facing code -/

/-- C1: for every identifier `s` and every options value `o`, `Board::initBoard`
makes exactly one host call: the trace grows by one call and the host is stepped
once, by that call.  The call is `initBoard` on `_JSXGraph`, its first argument is
`s` unchanged and its second the attribute object with `boundingBox` the array of
the four bounds in order, `grid` and `axis`, and no other key.  For "box" and the
options of `main` the board is requested with bounding box (-2, 6, 6, -2), grid
false and axis true. -/
theorem initBoard_makes_one_host_call {σ ε : Type} (H : Host σ ε) (g : Val)
    (s : String) (o : BoardOptions) (w : World σ) :
    (Board.initBoard H g s o w).2.trace =
        w.trace ++ [⟨g, "initBoard", [Val.string s,
          attributesOf (o.boundingBox.get 0) (o.boundingBox.get 1) (o.boundingBox.get 2)
            (o.boundingBox.get 3) o.grid o.axis]⟩] ∧
      (Board.initBoard H g s o w).2.host =
        (H.call w.host ⟨g, "initBoard", [Val.string s,
          attributesOf (o.boundingBox.get 0) (o.boundingBox.get 1) (o.boundingBox.get 2)
            (o.boundingBox.get 3) o.grid o.axis]⟩).2 ∧
      (boardAttributes o).keys = ["boundingBox", "grid", "axis"] ∧
      (Board.initBoard H g "box" mainOptions w).2.trace =
        w.trace ++ [⟨g, "initBoard", [Val.string "box",
          attributesOf (-2) 6 6 (-2) false true]⟩] := by
  refine ⟨?_, ?_, ?_, ?_⟩
  · rw [initBoard_eq, initBoardCall_eq]
  · rw [initBoard_eq, initBoardCall_eq]
  · rw [boardAttributes_eq]; rfl
  · rw [initBoard_eq, initBoardCall_eq]; rfl

/-- C2: for every board `b` and every pair of integers, `createPoint` makes
exactly one host call, `createElement` on the host object of `b` with the element
type "point" and the array of the two coordinates in order; what it returns is
what the host call returned, and the host is stepped once, by that call.  On the
reference host, where `b` is a board, this adds exactly one object, a point of
that board at the coordinates given. -/
theorem createPoint_makes_one_host_call {σ ε : Type} (H : Host σ ε) (b : Board)
    (c : IntArray 2) (w : World σ) :
    b.createPoint H c w =
        ((H.call w.host ⟨b.myBoard, "createElement",
            [Val.string "point", coordsOf (c.get 0) (c.get 1)]⟩).1, b,
          ⟨(H.call w.host ⟨b.myBoard, "createElement",
            [Val.string "point", coordsOf (c.get 0) (c.get 1)]⟩).2,
            w.trace ++ [⟨b.myBoard, "createElement",
              [Val.string "point", coordsOf (c.get 0) (c.get 1)]⟩]⟩) ∧
      ∀ (p : Page) (t : List HostCall) (i : Nat) (container : String)
        (bounds : List Int) (grid axis : Bool),
        p.objects[i]? = some (PageObject.board container bounds grid axis) →
        ((Board.mk (Val.handle i)).createPoint pageHost c ⟨p, t⟩).2.2.host.objects =
            p.objects ++ [PageObject.point i (c.get 0) (c.get 1)] ∧
          ((Board.mk (Val.handle i)).createPoint pageHost c ⟨p, t⟩).2.2.host.pointsOf i =
            p.pointsOf i ++ [(c.get 0, c.get 1)] := by
  refine ⟨?_, ?_⟩
  · rw [createPoint_eq, createPointCall_eq]
  · intro p t i container bounds grid axis h
    have hc := page_createElement_point p i (c.get 0) (c.get 1) container bounds grid axis h
    rw [createPoint_eq, createPointCall_eq]
    simp only [pageHost, hc, page_pointsOf_append_point]
    simp

/-- C2 at the coordinates (4, 1), on the reference host with one board: the call
adds exactly one point, at (4, 1). -/
theorem createPoint_makes_one_host_call_witness :
    boardPage.pointsOf 1 = [] ∧
      ((Board.mk (Val.handle 1)).createPoint pageHost ⟨[4, 1], rfl⟩
        ⟨boardPage, []⟩).2.2.host.pointsOf 1 = [(4, 1)] :=
  ⟨rfl, ((createPoint_makes_one_host_call pageHost ⟨Val.handle 1⟩ ⟨[4, 1], rfl⟩
    ⟨boardPage, []⟩).2 boardPage [] 1 "box" [-2, 6, 6, -2] false true rfl).2⟩

/-- C5: `Board::initBoard` fails exactly when its host call fails, and then with
the failure of the host, unchanged, and without a `Board`; when the host call
returns a value, `initBoard` returns the `Board` that wraps this value.  This
holds for every options value: none is rejected before the call. -/
theorem initBoard_fails_iff_host_fails {σ ε : Type} (H : Host σ ε) (g : Val)
    (s : String) (o : BoardOptions) (w : World σ) :
    (∀ e, (Board.initBoard H g s o w).1 = Except.error e ↔
        (H.call w.host (initBoardCall g s o)).1 = Except.error e) ∧
      (∀ v, (H.call w.host (initBoardCall g s o)).1 = Except.ok v →
        (Board.initBoard H g s o w).1 = Except.ok ⟨v⟩) ∧
      (∀ b, (Board.initBoard H g s o w).1 = Except.ok b →
        (H.call w.host (initBoardCall g s o)).1 = Except.ok b.myBoard) := by
  rw [initBoard_eq]
  cases h : (H.call w.host (initBoardCall g s o)).1 with
  | error e0 => simp [Except.map]
  | ok v0 =>
    simp only [Except.map]
    refine ⟨fun e => by simp, fun v hv => by simp_all, fun b hb => ?_⟩
    cases hb
    rfl

/-- C5 on the reference host: on a page without the element "nobox" the call
fails with the failure of the host, and on the page with "box" it returns the
board the host made. -/
theorem initBoard_fails_iff_host_fails_witness :
    (Board.initBoard pageHost (Val.handle 0) "nobox" mainOptions ⟨boxPage, []⟩).1 =
        Except.error PageError.noSuchElement ∧
      (Board.initBoard pageHost (Val.handle 0) "box" mainOptions ⟨boxPage, []⟩).1 =
        Except.ok ⟨Val.handle 1⟩ :=
  ⟨((initBoard_fails_iff_host_fails pageHost (Val.handle 0) "nobox" mainOptions
      ⟨boxPage, []⟩).1 PageError.noSuchElement).2 rfl,
    (initBoard_fails_iff_host_fails pageHost (Val.handle 0) "box" mainOptions
      ⟨boxPage, []⟩).2.1 (Val.handle 1) rfl⟩

/-- C6: for every board and every pair of integers, `createPoint` checks
nothing itself: its result is the result of its host call, so it fails exactly
when the host call fails, and with the failure of the host, unchanged.  On the
reference host, which takes every pair of integers, the call on a board succeeds
for every pair, the least and the greatest `int` included. -/
theorem createPoint_fails_iff_host_fails {σ ε : Type} (H : Host σ ε) (b : Board)
    (c : IntArray 2) (w : World σ) :
    (b.createPoint H c w).1 = (H.call w.host (createPointCall b c)).1 ∧
      (∀ e, (b.createPoint H c w).1 = Except.error e ↔
        (H.call w.host (createPointCall b c)).1 = Except.error e) ∧
      ((Board.mk (Val.handle 1)).createPoint pageHost c ⟨boardPage, []⟩).1 =
        Except.ok (Val.handle 2) ∧
      ((Board.mk (Val.handle 1)).createPoint pageHost ⟨[-2147483648, 2147483647], rfl⟩
        ⟨boardPage, []⟩).2.2.host.pointsOf 1 = [(-2147483648, 2147483647)] := by
  refine ⟨rfl, fun e => Iff.rfl, ?_, ?_⟩
  · rw [createPoint_eq, createPointCall_eq]
    simp only [pageHost]
    rw [page_createElement_point boardPage 1 (c.get 0) (c.get 1) "box" [-2, 6, 6, -2]
      false true rfl]
    rfl
  · rfl

/-- C7: `main` first calls `initBoard` on `_JSXGraph` with "box" and the attribute
object of bounding box (-2, 6, 6, -2), grid false and axis true.  If this call
returns the value `v`, `main` then calls `createElement` on `v` itself with
"point" and the coordinates (4, 1), and makes no further host call; when the
second call succeeds too, `main` returns 0.  If the first call fails, `main`
fails with that failure and the second call is never made. -/
theorem main_host_calls {σ ε : Type} (H : Host σ ε) (g : Val) (w : World σ) :
    (∀ v s1 r s2,
        H.call w.host ⟨g, "initBoard",
          [Val.string "box", attributesOf (-2) 6 6 (-2) false true]⟩ = (Except.ok v, s1) →
        H.call s1 ⟨v, "createElement", [Val.string "point", coordsOf 4 1]⟩ = (r, s2) →
        (main H g w).1 = r.map (fun _ => 0) ∧
          (main H g w).2 = ⟨s2, w.trace ++
            [⟨g, "initBoard", [Val.string "box", attributesOf (-2) 6 6 (-2) false true]⟩,
              ⟨v, "createElement", [Val.string "point", coordsOf 4 1]⟩]⟩) ∧
      (∀ e s1,
        H.call w.host ⟨g, "initBoard",
          [Val.string "box", attributesOf (-2) 6 6 (-2) false true]⟩ = (Except.error e, s1) →
        main H g w = (Except.error e, ⟨s1, w.trace ++
          [⟨g, "initBoard", [Val.string "box", attributesOf (-2) 6 6 (-2) false true]⟩]⟩)) := by
  have h1 : initBoardCall g "box" mainOptions =
      ⟨g, "initBoard", [Val.string "box", attributesOf (-2) 6 6 (-2) false true]⟩ := by
    rw [initBoardCall_eq]; rfl
  have h2 : ∀ v : Val, createPointCall ⟨v⟩ ⟨[4, 1], rfl⟩ =
      ⟨v, "createElement", [Val.string "point", coordsOf 4 1]⟩ := by
    intro v; rw [createPointCall_eq]; rfl
  rw [main_eq, h1]
  refine ⟨fun v s1 r s2 hv hr => ?_, fun e s1 he => ?_⟩
  · rw [hv]
    simp [h2, hr]
  · rw [he]

/-- C7 on the reference host: on the page with the element "box", `main` returns
0 after exactly the two calls, the second on the board the first returned; on a
page without it `main` fails after the first call alone. -/
theorem main_host_calls_witness :
    main pageHost (Val.handle 0) ⟨boxPage, []⟩ =
        (Except.ok 0,
          ⟨⟨["box"], [PageObject.jsxGraph,
              PageObject.board "box" [-2, 6, 6, -2] false true, PageObject.point 1 4 1]⟩,
            [⟨Val.handle 0, "initBoard",
                [Val.string "box", attributesOf (-2) 6 6 (-2) false true]⟩,
              ⟨Val.handle 1, "createElement", [Val.string "point", coordsOf 4 1]⟩]⟩) ∧
      main pageHost (Val.handle 0) ⟨⟨[], [PageObject.jsxGraph]⟩, []⟩ =
        (Except.error PageError.noSuchElement,
          ⟨⟨[], [PageObject.jsxGraph]⟩,
            [⟨Val.handle 0, "initBoard",
              [Val.string "box", attributesOf (-2) 6 6 (-2) false true]⟩]⟩) :=
  ⟨Prod.ext
      ((main_host_calls pageHost (Val.handle 0) ⟨boxPage, []⟩).1 (Val.handle 1) boardPage
        (Except.ok (Val.handle 2)) _ rfl rfl).1
      ((main_host_calls pageHost (Val.handle 0) ⟨boxPage, []⟩).1 (Val.handle 1) boardPage
        (Except.ok (Val.handle 2)) _ rfl rfl).2,
    (main_host_calls pageHost (Val.handle 0) ⟨⟨[], [PageObject.jsxGraph]⟩, []⟩).2
      PageError.noSuchElement _ rfl⟩

/-- C8: `createPoint` leaves the `Board` as it was, whether the host call
succeeded or failed; hence after any sequence of `createPoint` calls on `b` the
board is still `b`, and every call of the sequence was made on the host object
`b` was constructed with. -/
theorem createPoint_leaves_board_unchanged {σ ε : Type} (H : Host σ ε) (b : Board)
    (c : IntArray 2) (cs : List (IntArray 2)) (w : World σ) :
    (b.createPoint H c w).2.1 = b ∧
      (createPoints H b cs w).1 = b ∧
      (createPoints H b cs w).2.trace = w.trace ++ cs.map (fun c1 =>
        ⟨b.myBoard, "createElement",
          [Val.string "point", coordsOf (c1.get 0) (c1.get 1)]⟩) ∧
      ∀ call ∈ (createPoints H b cs w).2.trace.drop w.trace.length,
        call.receiver = b.myBoard := by
  have ht : (createPoints H b cs w).2.trace = w.trace ++ cs.map (fun c1 =>
      ⟨b.myBoard, "createElement",
        [Val.string "point", coordsOf (c1.get 0) (c1.get 1)]⟩) := by
    rw [(createPoints_eq H b cs w).2]
    congr 1
    exact List.map_congr_left (fun c1 _ => createPointCall_eq b c1)
  refine ⟨rfl, (createPoints_eq H b cs w).1, ht, ?_⟩
  intro call hcall
  rw [ht, List.drop_left] at hcall
  obtain ⟨c1, _, rfl⟩ := List.mem_map.1 hcall
  rfl

/-! ## The function `fun` -/

theorem Double.ofInt_one : Double.ofInt 1 = Double.fin false 1 := by
  simp [Double.ofInt]

theorem Double.ofInt_four : Double.ofInt 4 = Double.fin false 4 := by
  simp [Double.ofInt]

theorem Double.mul_nan (P : Platform) (a : Double) : Double.mul P a Double.nan = Double.nan := by
  cases a <;> rfl

theorem Double.four_lt_overflowAt : (4 : ℚ) < Double.overflowAt := by
  norm_num [Double.overflowAt]

theorem Double.between_fin (a : Bool) (q : ℚ) (h : |q| ≤ 4) :
    Double.between (-4) 4 (Double.fin a q) = true := by
  have h1 := abs_le.1 h
  cases a <;> simp [Double.between, Double.toRat] <;> constructor <;> linarith [h1.1, h1.2]

theorem Double.between_four_mul (P : Platform) (hr : ∀ q, |q| ≤ 4 → |P.rnd q| ≤ 4)
    (a : Bool) (b : ℚ) (hb : |b| ≤ 1) :
    Double.between (-4) 4 (Double.mul P (Double.ofInt 4) (Double.fin a b)) = true := by
  have hb1 := abs_le.1 hb
  have h4 : |4 * b| ≤ 4 := abs_le.2 ⟨by linarith [hb1.1], by linarith [hb1.2]⟩
  have hlt : ¬ Double.overflowAt ≤ 4 * b := by
    have := Double.four_lt_overflowAt
    have := (abs_le.1 h4).2
    intro h
    linarith
  rw [Double.ofInt_four]
  simp only [Double.mul, Double.round, if_neg hlt]
  exact Double.between_fin _ _ (hr _ h4)

/-- C4, where the claim fails: at `t = 0` the function returns a value, not a
number, without failing. -/
theorem fun_zero_returns_nan :
    Double.nonzero (Double.fin false 0) = false ∧
      fun_ toyPlatform (Double.fin false 0) = Double.nan :=
  ⟨by decide, rfl⟩

/-- C4 as amended: on every platform and for the zero of either sign, `1 / t` is
the infinity of that sign, not a failure, and `fun` returns not a number. -/
theorem fun_at_zero (P : Platform) (s : Bool) :
    Double.div P (Double.ofInt 1) (Double.fin s 0) = Double.inf s ∧
      fun_ P (Double.fin s 0) = Double.nan := by
  have h : Double.div P (Double.ofInt 1) (Double.fin s 0) = Double.inf s := by
    rw [Double.ofInt_one]
    simp [Double.div]
  refine ⟨h, ?_⟩
  rw [fun_, h]
  simp only [Double.sin]
  exact Double.mul_nan P _

/-- C9, where the claim fails: the smallest positive `double` is not zero, its
reciprocal overflows to infinity, and `fun` returns not a number, which is not
between -4 and 4. -/
theorem fun_minDouble_not_between :
    Double.nonzero minDouble = true ∧
      Double.div toyPlatform (Double.ofInt 1) minDouble = Double.inf false ∧
      fun_ toyPlatform minDouble = Double.nan ∧
      Double.between (-4) 4 (fun_ toyPlatform minDouble) = false := by
  have h : Double.div toyPlatform (Double.ofInt 1) minDouble = Double.inf false := by
    rw [Double.ofInt_one]
    simp only [minDouble, Double.div, Double.round, Double.overflowAt]
    norm_num
  have hf : fun_ toyPlatform minDouble = Double.nan := by
    rw [fun_, h]
    simp only [Double.sin]
    exact Double.mul_nan _ _
  refine ⟨?_, h, hf, ?_⟩
  · simp [Double.nonzero, minDouble]
  · rw [hf]
    rfl

/-- C9 as amended: on a platform whose sine stays within magnitude 1 and whose
rounding keeps a magnitude of at most 4 at most 4, for every `t` with a finite
reciprocal (an infinity, or a finite `t` other than zero whose reciprocal is
below the overflow threshold) the value of `fun(t)` is a number between -4 and 4
inclusive. -/
theorem fun_between (P : Platform) (t : Double)
    (hs : ∀ s m, |(P.sin s m).2| ≤ 1) (hr : ∀ q, |q| ≤ 4 → |P.rnd q| ≤ 4)
    (ht : t.reciprocalFinite = true) :
    Double.between (-4) 4 (fun_ P t) = true := by
  have h0 : |(0 : ℚ)| ≤ 1 := by norm_num
  rw [fun_, Double.ofInt_one]
  cases t with
  | nan => simp [Double.reciprocalFinite] at ht
  | inf s =>
    simp only [Double.div, Double.sin, if_true]
    exact Double.between_four_mul P hr _ 0 h0
  | fin s m =>
    simp only [Double.reciprocalFinite, Bool.and_eq_true, decide_eq_true_eq] at ht
    have hlt : ¬ Double.overflowAt ≤ 1 / m := not_le.2 ht.2
    simp only [Double.div, if_neg ht.1, Double.round, if_neg hlt, Double.sin]
    split
    · exact Double.between_four_mul P hr _ 0 h0
    · exact Double.between_four_mul P hr _ _ (hs _ _)

/-- C9 as amended, at `t = 2` on the platform `toyPlatform`. -/
theorem fun_between_witness :
    Double.reciprocalFinite (Double.fin false 2) = true ∧
      Double.between (-4) 4 (fun_ toyPlatform (Double.fin false 2)) = true :=
  have ht : Double.reciprocalFinite (Double.fin false 2) = true := by
    simp only [Double.reciprocalFinite, Bool.and_eq_true, decide_eq_true_eq]
    exact ⟨by norm_num, by norm_num [Double.overflowAt]⟩
  ⟨ht, fun_between toyPlatform (Double.fin false 2)
    (fun s m => by
      simp only [toyPlatform]
      rw [abs_of_nonneg (le_min zero_le_one (abs_nonneg _))]
      exact min_le_left _ _)
    (fun q h => h) ht⟩

/-! ## `fun` and the real sine -/

theorem abs_sin_le_abs (z : ℝ) : |Real.sin z| ≤ |z| := by
  have key : ∀ y : ℝ, 0 ≤ y → |Real.sin y| ≤ y := by
    intro y hy
    refine abs_le.2 ⟨?_, Real.sin_le hy⟩
    by_cases h1 : y ≤ 1
    · have hpi : y ≤ Real.pi := by linarith [Real.pi_gt_three]
      linarith [Real.sin_nonneg_of_nonneg_of_le_pi hy hpi]
    · linarith [Real.neg_one_le_sin y]
  by_cases hz : 0 ≤ z
  · rw [abs_of_nonneg hz]
    exact key z hz
  · have hz1 : 0 ≤ -z := by linarith
    have h := key (-z) hz1
    rw [Real.sin_neg, abs_neg] at h
    rw [abs_of_neg (not_le.1 hz)]
    exact h

theorem abs_sin_sub_sin_le (x y : ℝ) : |Real.sin x - Real.sin y| ≤ |x - y| := by
  rw [Real.sin_sub_sin, abs_mul, abs_mul]
  have h1 := abs_sin_le_abs ((x - y) / 2)
  have h2 := Real.abs_cos_le_one ((x + y) / 2)
  have h3 : |(x - y) / 2| = |x - y| / 2 := by
    rw [abs_div]; norm_num
  have h4 : (0 : ℝ) ≤ |Real.sin ((x - y) / 2)| := abs_nonneg _
  have h5 : |(2 : ℝ)| = 2 := by norm_num
  rw [h5]
  calc 2 * |Real.sin ((x - y) / 2)| * |Real.cos ((x + y) / 2)|
      ≤ 2 * |Real.sin ((x - y) / 2)| * 1 :=
        mul_le_mul_of_nonneg_left h2 (by linarith)
    _ ≤ |x - y| := by linarith

theorem Double.signed_sub (a : Bool) (x y : ℚ) :
    |((Double.signed a x : ℚ) : ℝ) - ((Double.signed a y : ℚ) : ℝ)| = |(x : ℝ) - (y : ℝ)| := by
  cases a
  · simp [Double.signed]
  · simp only [Double.signed, if_true, Rat.cast_neg]
    rw [← abs_neg]
    congr 1
    ring

theorem Double.signed_one_div (a : Bool) (m : ℚ) :
    ((Double.signed a (1 / m) : ℚ) : ℝ) = 1 / ((Double.signed a m : ℚ) : ℝ) := by
  cases a
  · simp [Double.signed]
  · simp only [Double.signed, if_true, Rat.cast_neg, Rat.cast_div, Rat.cast_one]
    rw [div_neg]

theorem fun_minDouble (P : Platform) : fun_ P minDouble = Double.nan := by
  have h : Double.div P (Double.ofInt 1) minDouble = Double.inf false := by
    rw [Double.ofInt_one]
    simp only [minDouble, Double.div, Double.round, Double.overflowAt]
    norm_num
  rw [fun_, h]
  simp only [Double.sin]
  exact Double.mul_nan _ _

theorem fun_fin_of_reciprocalFinite (P : Platform) (s : Bool) (m : ℚ)
    (ht : Double.reciprocalFinite (Double.fin s m) = true)
    (hb : ∀ a q, |(P.sin a q).2| ≤ 1) :
    fun_ P (Double.fin s m) =
      if P.rnd (1 / m) = 0 then Double.fin s (P.rnd (4 * 0))
      else Double.fin (P.sin s (P.rnd (1 / m))).1
        (P.rnd (4 * (P.sin s (P.rnd (1 / m))).2)) := by
  simp only [Double.reciprocalFinite, Bool.and_eq_true, decide_eq_true_eq] at ht
  have hlt : ¬ Double.overflowAt ≤ 1 / m := not_le.2 ht.2
  have h4 := Double.four_lt_overflowAt
  have hmul : ∀ (a : Bool) (b : ℚ), |b| ≤ 1 →
      Double.mul P (Double.fin false 4) (Double.fin a b) = Double.fin a (P.rnd (4 * b)) := by
    intro a b hb1
    have hb2 := (abs_le.1 hb1).2
    have hno : ¬ Double.overflowAt ≤ 4 * b := by
      intro h
      linarith
    simp only [Double.mul, Double.round, if_neg hno, Bool.false_xor]
  rw [fun_, Double.ofInt_one, Double.ofInt_four]
  simp only [Double.div, if_neg ht.1, Double.round, if_neg hlt, Double.sin, Bool.false_xor]
  split
  · exact hmul s 0 (by norm_num)
  · exact hmul _ _ (hb _ _)

/-- C3, where the claim fails: the smallest positive `double` is not zero, and
there `fun` returns not a number, so its result is no number at all and in
particular not the number `4 * sin(1 / t)`. -/
theorem fun_minDouble_no_number :
    Double.nonzero minDouble = true ∧
      Double.toRat (fun_ toyPlatform minDouble) = none ∧
      ¬ ∃ v : ℚ, Double.toRat (fun_ toyPlatform minDouble) = some v ∧
        (v : ℝ) = 4 * Real.sin (1 / ((Double.signed false (1 / 2 ^ 1074) : ℚ) : ℝ)) := by
  have hf := fun_minDouble toyPlatform
  refine ⟨?_, ?_, ?_⟩
  · simp [Double.nonzero, minDouble]
  · rw [hf]; rfl
  · rintro ⟨v, hv, _⟩
    rw [hf] at hv
    simp [Double.toRat] at hv

/-- C3 as amended: for every finite `t` other than zero whose reciprocal does
not overflow, `fun(t)` returns a number, and this number is within
`4 * δ + 4 * η + μ` of `4 * sin(1 / t)`, where `η` bounds the rounding error of
the division `1 / t`, `δ` the error of the library sine at the rounded quotient
and `μ` the rounding error of a product of magnitude at most 4, on a platform
whose sine stays within magnitude 1. -/
theorem fun_near_sine (P : Platform) (s : Bool) (m : ℚ) (δ η μ : ℝ)
    (ht : Double.reciprocalFinite (Double.fin s m) = true)
    (hd : |((P.rnd (1 / m) : ℚ) : ℝ) - ((1 / m : ℚ) : ℝ)| ≤ η)
    (hs : |((Double.signed (P.sin s (P.rnd (1 / m))).1
          (P.sin s (P.rnd (1 / m))).2 : ℚ) : ℝ) -
        Real.sin ((Double.signed s (P.rnd (1 / m)) : ℚ) : ℝ)| ≤ δ)
    (hb : ∀ a q, |(P.sin a q).2| ≤ 1)
    (hm : ∀ q : ℚ, |q| ≤ 4 → |((P.rnd q : ℚ) : ℝ) - (q : ℝ)| ≤ μ) :
    ∃ v : ℚ, Double.toRat (fun_ P (Double.fin s m)) = some v ∧
      |(v : ℝ) - 4 * Real.sin (1 / ((Double.signed s m : ℚ) : ℝ))| ≤
        4 * δ + 4 * η + μ := by
  have hδ : 0 ≤ δ := le_trans (abs_nonneg _) hs
  -- the sine of the rounded quotient against the sine of the quotient
  have hq : |Real.sin ((Double.signed s (P.rnd (1 / m)) : ℚ) : ℝ) -
      Real.sin (1 / ((Double.signed s m : ℚ) : ℝ))| ≤ η := by
    rw [← Double.signed_one_div]
    refine le_trans (abs_sin_sub_sin_le _ _) ?_
    rw [Double.signed_sub]
    exact hd
  rw [fun_fin_of_reciprocalFinite P s m ht hb]
  split
  · rename_i h0
    refine ⟨Double.signed s (P.rnd (4 * 0)), rfl, ?_⟩
    have h1 := hm (4 * 0) (by norm_num)
    have h2 : |((Double.signed s (P.rnd (4 * 0)) : ℚ) : ℝ)| ≤ μ := by
      have := Double.signed_sub s (P.rnd (4 * 0)) (4 * 0)
      have hz : ((Double.signed s (4 * 0) : ℚ) : ℝ) = 0 := by
        cases s <;> simp [Double.signed]
      rw [hz, sub_zero] at this
      rw [this]
      exact h1
    have h3 : |Real.sin (1 / ((Double.signed s m : ℚ) : ℝ))| ≤ η := by
      have hz : Real.sin ((Double.signed s (P.rnd (1 / m)) : ℚ) : ℝ) = 0 := by
        rw [h0]
        cases s <;> simp [Double.signed]
      rw [hz, zero_sub, abs_neg] at hq
      exact hq
    have h4 := abs_le.1 h2
    have h5 := abs_le.1 h3
    generalize ((Double.signed s (P.rnd (4 * 0)) : ℚ) : ℝ) = V at h4 ⊢
    generalize Real.sin (1 / ((Double.signed s m : ℚ) : ℝ)) = S at h5 ⊢
    exact abs_le.2 ⟨by linarith [h4.1, h5.2], by linarith [h4.2, h5.1]⟩
  · refine ⟨Double.signed (P.sin s (P.rnd (1 / m))).1
      (P.rnd (4 * (P.sin s (P.rnd (1 / m))).2)), rfl, ?_⟩
    have hb1 := hb s (P.rnd (1 / m))
    have hb4 : |4 * (P.sin s (P.rnd (1 / m))).2| ≤ 4 := by
      rw [abs_mul]
      have : |(4 : ℚ)| = 4 := by norm_num
      rw [this]
      linarith
    have h1 := hm _ hb4
    rw [← Double.signed_sub (P.sin s (P.rnd (1 / m))).1] at h1
    have h2 : ((Double.signed (P.sin s (P.rnd (1 / m))).1
        (4 * (P.sin s (P.rnd (1 / m))).2) : ℚ) : ℝ) =
        4 * ((Double.signed (P.sin s (P.rnd (1 / m))).1
          (P.sin s (P.rnd (1 / m))).2 : ℚ) : ℝ) := by
      cases (P.sin s (P.rnd (1 / m))).1 <;> simp [Double.signed]
    rw [h2] at h1
    have e1 := abs_le.1 h1
    have e2 := abs_le.1 hs
    have e3 := abs_le.1 hq
    exact abs_le.2 ⟨by linarith [e1.1, e2.1, e3.1], by linarith [e1.2, e2.2, e3.2]⟩

/-- C3 as amended, at `t = 2` on the platform `toyPlatform`, which rounds
exactly and whose sine at `1 / 2` is within `5 / 1536` of the real sine. -/
theorem fun_near_sine_witness :
    Double.reciprocalFinite (Double.fin false 2) = true ∧
      ∃ v : ℚ, Double.toRat (fun_ toyPlatform (Double.fin false 2)) = some v ∧
        |(v : ℝ) - 4 * Real.sin (1 / ((Double.signed false 2 : ℚ) : ℝ))| ≤
          4 * (5 / 1536) + 4 * 0 + 0 :=
  have ht : Double.reciprocalFinite (Double.fin false 2) = true := by
    simp only [Double.reciprocalFinite, Bool.and_eq_true, decide_eq_true_eq]
    exact ⟨by norm_num, by norm_num [Double.overflowAt]⟩
  ⟨ht, fun_near_sine toyPlatform false 2 (5 / 1536) 0 0 ht
    (by simp [toyPlatform])
    (by
      have hx : |(1 / 2 : ℝ)| ≤ 1 := by
        rw [abs_of_nonneg (by norm_num)]; norm_num
      have hbound := Real.sin_bound hx
      have hv : ((Double.signed (toyPlatform.sin false (toyPlatform.rnd (1 / 2))).1
          (toyPlatform.sin false (toyPlatform.rnd (1 / 2))).2 : ℚ) : ℝ) =
          1 / 2 - (1 / 2) ^ 3 / 6 := by
        have hq : Double.signed (toyPlatform.sin false (toyPlatform.rnd (1 / 2))).1
            (toyPlatform.sin false (toyPlatform.rnd (1 / 2))).2 = 23 / 48 := by
          simp only [toyPlatform, Double.signed]
          norm_num
          rw [abs_of_nonneg (by norm_num)]
          norm_num
        rw [hq]
        norm_num
      have ha : ((Double.signed false (toyPlatform.rnd (1 / 2)) : ℚ) : ℝ) = 1 / 2 := by
        simp [toyPlatform, Double.signed]
      rw [hv, ha, abs_sub_comm]
      refine le_trans hbound ?_
      rw [abs_of_nonneg (by norm_num)]
      norm_num)
    (fun a q => by
      simp only [toyPlatform]
      rw [abs_of_nonneg (le_min zero_le_one (abs_nonneg _))]
      exact min_le_left _ _)
    (fun q _ => by simp [toyPlatform])⟩

end JXG
